import Mathlib

/-!
Shallow embedding of the Go (Weiqi) rules engine in `src/js/game/rules.js`
and the easy tier of the move selector in `src/js/game/ai.js`.

Modelling conventions:
* JS numbers holding stone colors are `Nat` (`EMPTY = 0`, `BLACK = 1`, `WHITE = 2`).
* Board coordinates are `Int` (JS arithmetic on indices can go negative, e.g.
  `x - 1` in `getNeighbors`); in-bounds reads index the row lists via `toNat`.
* The JS `Set` of string keys `"x,y"` is modelled as a duplicate-free list of
  `Int × Int` pairs kept in insertion order (`insertKey`), which is exactly the
  observable behaviour of a JS `Set` (`has`, `add`, iteration order, `size`).
* The two breadth-first `while` loops (`getGroup`, `calculateTerritory`) are
  written with an explicit fuel of `size * size + 1`; each loop iteration
  dequeues one position and every enqueued position is a fresh visited key, so
  the fuel is never exhausted on a real board and the translation is total.
* JS array copies (`row => [...row]`, `{ ...obj }`) are value copies; on pure
  Lean values they are the identity and are written as `copyBoard` / plain
  field reads.
* `Math.floor(Math.random() * list.length)` is an arbitrary in-range index; it
  is modelled by an injected source `rand : Nat → Nat` (one draw per call
  site), reduced modulo the list length.
-/

namespace GoGame

/-- Stone constants from rules.js. -/
def EMPTY : Nat := 0

def BLACK : Nat := 1

def WHITE : Nat := 2

def BOARD_SIZE : Nat := 19

abbrev Board := List (List Nat)

abbrev Pos := Int × Int

/-- Embeds `this.board[x][y]` (only ever read in bounds in the source). -/
def getCell (b : Board) (x y : Int) : Nat :=
  (b.getD x.toNat []).getD y.toNat EMPTY

/-- Embeds `this.board[x][y] = v` (only ever written in bounds in the source). -/
def setCell (b : Board) (x y : Int) (v : Nat) : Board :=
  b.set x.toNat ((b.getD x.toNat []).set y.toNat v)

/-- Embeds `{ x, y, player }` as stored in `this.lastMove`. -/
structure LastMove where
  x : Int
  y : Int
  player : Nat
deriving DecidableEq, Repr

/-- A move-log entry: `{ x, y, player, captured }` for a placement,
`{ x: -1, y: -1, player, isPass: true }` for a pass (the absent JS fields
read back as falsy / 0). -/
structure MoveRec where
  x : Int
  y : Int
  player : Nat
  captured : Nat
  isPass : Bool
deriving DecidableEq, Repr

/-- One entry of `this.boardHistory`, as built by `saveBoardState`. -/
structure Snapshot where
  board : Board
  currentPlayer : Nat
  capturedBlack : Nat
  capturedWhite : Nat
  koPoint : Option Pos
  lastMove : Option LastMove
deriving DecidableEq, Repr

/-- The mutable fields of the `GoRules` instance. -/
structure GoState where
  size : Nat
  board : Board
  currentPlayer : Nat
  capturedBlack : Nat
  capturedWhite : Nat
  lastMove : Option LastMove
  koPoint : Option Pos
  moveHistory : List MoveRec
  boardHistory : List Snapshot
deriving DecidableEq, Repr

/-- Embeds `board.map(row => [...row])` — a deep copy of the grid. -/
def copyBoard (b : Board) : Board :=
  b.map (fun row => row.map (fun c => c))

/-- The record pushed by `saveBoardState` (spreads copy the nested objects). -/
def snapOf (s : GoState) : Snapshot :=
  { board := copyBoard s.board
    currentPlayer := s.currentPlayer
    capturedBlack := s.capturedBlack
    capturedWhite := s.capturedWhite
    koPoint := s.koPoint
    lastMove := s.lastMove }

/-- Embeds `saveBoardState()`. -/
def saveBoardState (s : GoState) : GoState :=
  { s with boardHistory := s.boardHistory ++ [snapOf s] }

/-- Embeds `init()` together with the constructor: fresh empty board, BLACK to move,
zero counters, cleared histories, initial snapshot recorded. -/
def init (n : Nat) : GoState :=
  saveBoardState
    { size := n
      board := List.replicate n (List.replicate n EMPTY)
      currentPlayer := BLACK
      capturedBlack := 0
      capturedWhite := 0
      lastMove := none
      koPoint := none
      moveHistory := []
      boardHistory := [] }

/-- Embeds `getOpponent(player)`. -/
def getOpponent (player : Nat) : Nat :=
  if player = BLACK then WHITE else BLACK

/-- Embeds `isOnBoard(x, y)`. -/
def isOnBoard (n : Nat) (x y : Int) : Bool :=
  decide (0 ≤ x) && decide (x < (n : Int)) && decide (0 ≤ y) && decide (y < (n : Int))

/-- The four direction offsets of `getNeighbors`, in source order. -/
def directions : List (Int × Int) := [(-1, 0), (1, 0), (0, -1), (0, 1)]

/-- Embeds `getNeighbors(x, y)`: the in-bounds orthogonal neighbours, in source order. -/
def getNeighbors (n : Nat) (x y : Int) : List Pos :=
  (directions.map (fun d => (x + d.1, y + d.2))).filter (fun p => isOnBoard n p.1 p.2)

/-- Embeds `set.add(key)` on a JS `Set`: append if not already present. -/
def insertKey (k : Pos) (l : List Pos) : List Pos :=
  if k ∈ l then l else l ++ [k]

/-- The result of `getGroup`: member stones and the liberty set. -/
structure Group where
  stones : List Pos
  liberties : List Pos
deriving DecidableEq, Repr

/-- The inner `for (const neighbor of neighbors)` loop of `getGroup`,
threading (queue, visited, liberties). -/
def groupScan (bd : Board) (color : Nat) :
    List Pos → List Pos × List Pos × List Pos → List Pos × List Pos × List Pos
  | [], acc => acc
  | nb :: rest, (q, vis, libs) =>
    let c := getCell bd nb.1 nb.2
    if c = EMPTY then
      groupScan bd color rest (q, vis, insertKey nb libs)
    else if c = color ∧ nb ∉ vis then
      groupScan bd color rest (q ++ [nb], insertKey nb vis, libs)
    else
      groupScan bd color rest (q, vis, libs)

/-- The `while (queue.length > 0)` loop of `getGroup`, with fuel. -/
def groupLoop (n : Nat) (bd : Board) (color : Nat) :
    Nat → List Pos → List Pos → List Pos → List Pos → List Pos × List Pos
  | 0, _, _, stones, libs => (stones, libs)
  | _ + 1, [], _, stones, libs => (stones, libs)
  | fuel + 1, c :: rest, vis, stones, libs =>
    let r := groupScan bd color (getNeighbors n c.1 c.2) (rest, vis, libs)
    groupLoop n bd color fuel r.1 r.2.1 (stones ++ [c]) r.2.2

/-- Embeds `getGroup(x, y)`: BFS over the same-colored connected component. -/
def getGroup (n : Nat) (bd : Board) (x y : Int) : Group :=
  let color := getCell bd x y
  if color = EMPTY then ⟨[], []⟩
  else
    let r := groupLoop n bd color (n * n + 1) [(x, y)] [(x, y)] [] []
    ⟨r.1, r.2⟩

/-- Embeds `countLiberties(x, y)`. -/
def countLiberties (n : Nat) (bd : Board) (x y : Int) : Nat :=
  (getGroup n bd x y).liberties.length

/-- Embeds `removeGroup(stones)`: clear the listed cells, credit the opposing tally
with `stones.length`, return `(board, capturedBlack, capturedWhite, count)`. -/
def removeGroup (bd : Board) (cb cw : Nat) (stones : List Pos) : Board × Nat × Nat × Nat :=
  let h := stones.headD (0, 0)
  let color := getCell bd h.1 h.2
  let bd2 := stones.foldl (fun b p => setCell b p.1 p.2 EMPTY) bd
  if color = BLACK then (bd2, cb + stones.length, cw, stones.length)
  else (bd2, cb, cw + stones.length, stones.length)

/-- Embeds `getCapturedStones(x, y, player)`: for each opposing neighbour of (x,y)
whose group has no liberties, append that whole group's stones. -/
def getCapturedStones (n : Nat) (bd : Board) (x y : Int) (player : Nat) : List Pos :=
  let opponent := getOpponent player
  (getNeighbors n x y).foldl
    (fun acc nb =>
      if getCell bd nb.1 nb.2 = opponent then
        let g := getGroup n bd nb.1 nb.2
        if g.liberties.length = 0 then acc ++ g.stones else acc
      else acc)
    []

/-- Embeds `hasLibertyAfterMove(x, y, player)` (the player argument is unused in the
source as well). -/
def hasLibertyAfterMove (n : Nat) (bd : Board) (x y : Int) (player : Nat) : Bool :=
  decide ((getGroup n bd x y).liberties.length > 0)

/-- Embeds `isKoPoint(x, y)`. -/
def isKoPoint (s : GoState) (x y : Int) : Bool :=
  match s.koPoint with
  | none => false
  | some k => decide (k.1 = x) && decide (k.2 = y)

/-- The discriminated result of `isValidMove`:
`{valid: false, reason}` or `{valid: true, captured}`. -/
inductive MoveCheck where
  | invalid (reason : String)
  | valid (captured : List Pos)
deriving DecidableEq, Repr

/-- The `valid` flag of a `MoveCheck`. -/
def MoveCheck.isValid : MoveCheck → Bool
  | .invalid _ => false
  | .valid _ => true

/-- Embeds `isValidMove(x, y, player)`, with the transient board mutation made
explicit: the speculative stone is placed, captures and liberties are
computed, and the cell is reset to `EMPTY` before returning.  The second
component is the state the engine is left in. -/
def isValidMoveS (s : GoState) (x y : Int) (player : Nat) : MoveCheck × GoState :=
  if isOnBoard s.size x y = false then
    (.invalid "超出棋盘范围", s)
  else if getCell s.board x y ≠ EMPTY then
    (.invalid "该位置已有棋子", s)
  else if isKoPoint s x y then
    (.invalid "打劫禁入点", s)
  else
    let b1 := setCell s.board x y player
    let captured := getCapturedStones s.size b1 x y player
    if captured.length > 0 then
      (.valid captured, { s with board := setCell b1 x y EMPTY })
    else if hasLibertyAfterMove s.size b1 x y player = false then
      (.invalid "禁止自杀", { s with board := setCell b1 x y EMPTY })
    else
      (.valid [], { s with board := setCell b1 x y EMPTY })

/-- The returned record of `isValidMove` alone. -/
def isValidMove (s : GoState) (x y : Int) (player : Nat) : MoveCheck :=
  (isValidMoveS s x y player).1

/-- The discriminated result of `makeMove`:
`{success: false, reason}` or `{success: true, captured, koPoint}`. -/
inductive MoveResult where
  | failure (reason : String)
  | success (captured : Nat) (koPoint : Option Pos)
deriving DecidableEq, Repr

/-- The capture step of `makeMove`: place the stone, and when the capture
list is non-empty run `removeGroup`; returns
`(board, capturedBlack, capturedWhite, capturedCount)`. -/
def captureStep (s0 : GoState) (x y : Int) (player : Nat) : Board × Nat × Nat × Nat :=
  let b1 := setCell s0.board x y player
  let captured := getCapturedStones s0.size b1 x y player
  if captured.length > 0 then removeGroup b1 s0.capturedBlack s0.capturedWhite captured
  else (b1, s0.capturedBlack, s0.capturedWhite, 0)

/-- The ko recomputation of `makeMove`: exactly one captured stone, a
single-stone just-placed group with exactly one liberty. -/
def koCheck (n : Nat) (bd : Board) (x y : Int) (capturedCount : Nat) : Option Pos :=
  if capturedCount = 1 then
    let myGroup := getGroup n bd x y
    if myGroup.stones.length = 1 ∧ myGroup.liberties.length = 1 then
      myGroup.liberties.head?
    else none
  else none

/-- The success path of `makeMove` (after validation): place the stone,
remove captured groups, recompute the ko point, log the move, switch the
player and push a snapshot. -/
def makeMoveCore (s0 : GoState) (x y : Int) (player : Nat) : MoveResult × GoState :=
  let r := captureStep s0 x y player
  let ko := koCheck s0.size r.1 x y r.2.2.2
  let s1 : GoState :=
    { s0 with
      board := r.1
      capturedBlack := r.2.1
      capturedWhite := r.2.2.1
      koPoint := ko
      lastMove := some ⟨x, y, player⟩
      moveHistory := s0.moveHistory ++ [⟨x, y, player, r.2.2.2, false⟩]
      currentPlayer := getOpponent player }
  (.success r.2.2.2 ko, saveBoardState s1)

/-- Embeds `makeMove(x, y, player)`: re-validate, then run the success path. -/
def makeMove (s : GoState) (x y : Int) (player : Nat) : MoveResult × GoState :=
  match (isValidMoveS s x y player).1 with
  | .invalid reason => (.failure reason, (isValidMoveS s x y player).2)
  | .valid _ => makeMoveCore (isValidMoveS s x y player).2 x y player

/-- The discriminated result of `undoMove`. -/
inductive UndoResult where
  | failure (reason : String)
  | ok
deriving DecidableEq, Repr

/-- Embeds `undoMove()`: pop the latest snapshot and move-log entry and restore the
previous snapshot verbatim.  (The `none` branch of the inner match is
unreachable: the guard guarantees at least one snapshot remains.) -/
def undoMove (s : GoState) : UndoResult × GoState :=
  if s.boardHistory.length ≤ 1 then
    (.failure "没有可以悔棋的步骤", s)
  else
    let bh := s.boardHistory.dropLast
    let mh := s.moveHistory.dropLast
    match bh.getLast? with
    | none => (.failure "没有可以悔棋的步骤", s)
    | some prev =>
      (.ok,
       { s with
         board := copyBoard prev.board
         currentPlayer := prev.currentPlayer
         capturedBlack := prev.capturedBlack
         capturedWhite := prev.capturedWhite
         koPoint := prev.koPoint
         lastMove := prev.lastMove
         moveHistory := mh
         boardHistory := bh })

/-- The returned record of `pass()`. -/
structure PassResult where
  success : Bool
  gameEnd : Bool
deriving DecidableEq, Repr

/-- The terminal check of `pass()`: `history.slice(-2)` both pass records. -/
def lastTwoArePasses (history : List MoveRec) : Bool :=
  if history.length ≥ 2 then
    match history.drop (history.length - 2) with
    | [a, b] => a.isPass && b.isPass
    | _ => false
  else false

/-- Embeds `pass()`: log a pass marker, switch the player, clear the ko point, push a
snapshot, and report game end when the two latest log entries are passes. -/
def pass (s : GoState) : PassResult × GoState :=
  let player := s.currentPlayer
  let s1 :=
    { s with
      moveHistory := s.moveHistory ++ [⟨-1, -1, player, 0, true⟩]
      currentPlayer := getOpponent player
      koPoint := none }
  let s2 := saveBoardState s1
  (⟨true, lastTwoArePasses s2.moveHistory⟩, s2)

/-- The record returned by `getBoardState()` / accepted by `loadState(state)`.
`moveHistory` and `boardHistory` are optional because the JS record produced
by `getBoardState` simply has no such properties; `loadState` reads them with
a `|| []` default. -/
structure SavedState where
  board : Board
  currentPlayer : Nat
  capturedBlack : Nat
  capturedWhite : Nat
  lastMove : Option LastMove
  koPoint : Option Pos
  moveCount : Nat
  moveHistory : Option (List MoveRec)
  boardHistory : Option (List Snapshot)
deriving DecidableEq, Repr

/-- Embeds `getBoardState()`: grid copy, scalars, and the move count — no move log
and no snapshot history. -/
def getBoardState (s : GoState) : SavedState :=
  { board := copyBoard s.board
    currentPlayer := s.currentPlayer
    capturedBlack := s.capturedBlack
    capturedWhite := s.capturedWhite
    lastMove := s.lastMove
    koPoint := s.koPoint
    moveCount := s.moveHistory.length
    moveHistory := none
    boardHistory := none }

/-- Embeds `loadState(state)`: restore every field, defaulting the absent histories
to `[]` (`state.moveHistory || []`). -/
def loadState (s : GoState) (st : SavedState) : GoState :=
  { s with
    board := copyBoard st.board
    currentPlayer := st.currentPlayer
    capturedBlack := st.capturedBlack
    capturedWhite := st.capturedWhite
    lastMove := st.lastMove
    koPoint := st.koPoint
    moveHistory := st.moveHistory.getD []
    boardHistory := st.boardHistory.getD [] }

/-- Embeds `getAllValidMoves(player)`: row-major scan collecting the legal points. -/
def getAllValidMoves (s : GoState) (player : Nat) : List Pos :=
  (List.range s.size).foldl
    (fun acc x =>
      (List.range s.size).foldl
        (fun acc2 y =>
          if (isValidMove s (Int.ofNat x) (Int.ofNat y) player).isValid then
            acc2 ++ [((Int.ofNat x : Int), (Int.ofNat y : Int))]
          else acc2)
        acc)
    []

/-- The territory tallies of `calculateTerritory()`. -/
structure Territory where
  black : Nat
  white : Nat
  neutral : Nat
deriving DecidableEq, Repr

/-- The inner neighbour loop of the territory flood fill, threading
(queue, visited, touchesBlack, touchesWhite). -/
def territoryScan (bd : Board) :
    List Pos → List Pos × List Pos × Bool × Bool → List Pos × List Pos × Bool × Bool
  | [], acc => acc
  | nb :: rest, (q, vis, tB, tW) =>
    let c := getCell bd nb.1 nb.2
    if c = BLACK then territoryScan bd rest (q, vis, true, tW)
    else if c = WHITE then territoryScan bd rest (q, vis, tB, true)
    else if nb ∉ vis then territoryScan bd rest (q ++ [nb], insertKey nb vis, tB, tW)
    else territoryScan bd rest (q, vis, tB, tW)

/-- The `while (queue.length > 0)` loop of the territory flood fill. -/
def territoryLoop (n : Nat) (bd : Board) :
    Nat → List Pos → List Pos → List Pos → Bool → Bool →
    List Pos × List Pos × Bool × Bool
  | 0, _, vis, region, tB, tW => (vis, region, tB, tW)
  | _ + 1, [], vis, region, tB, tW => (vis, region, tB, tW)
  | fuel + 1, c :: rest, vis, region, tB, tW =>
    let r := territoryScan bd (getNeighbors n c.1 c.2) (rest, vis, tB, tW)
    territoryLoop n bd fuel r.1 r.2.1 (region ++ [c]) r.2.2.1 r.2.2.2

/-- The board cells in the row-major order of the source's nested loops. -/
def allCells (n : Nat) : List Pos :=
  (List.range n).foldl
    (fun acc x => acc ++ (List.range n).map (fun y => ((Int.ofNat x : Int), (Int.ofNat y : Int))))
    []

/-- The outer double loop of `calculateTerritory()`, threading the visited set
and the tallies over the cells. -/
def territoryFold (n : Nat) (bd : Board) :
    List Pos → List Pos → Territory → List Pos × Territory
  | [], vis, t => (vis, t)
  | c :: rest, vis, t =>
    if getCell bd c.1 c.2 ≠ EMPTY ∨ c ∈ vis then
      territoryFold n bd rest vis t
    else
      let vis1 := insertKey c vis
      let r := territoryLoop n bd (n * n + 1) [c] vis1 [] false false
      let region := r.2.1
      let tB := r.2.2.1
      let tW := r.2.2.2
      let t2 :=
        if tB = true ∧ tW = false then { t with black := t.black + region.length }
        else if tW = true ∧ tB = false then { t with white := t.white + region.length }
        else { t with neutral := t.neutral + region.length }
      territoryFold n bd rest r.1 t2

/-- Embeds `calculateTerritory()`. -/
def calculateTerritory (s : GoState) : Territory :=
  (territoryFold s.size s.board (allCells s.size) [] ⟨0, 0, 0⟩).2

/-- The record returned by `calculateScore()`.  Scores are rationals because
of the fractional komi `7.5`. -/
structure ScoreResult where
  black : ℚ
  white : ℚ
  blackStones : Nat
  whiteStones : Nat
  blackTerritory : Nat
  whiteTerritory : Nat
  winner : Nat
  margin : ℚ
deriving DecidableEq, Repr

/-- A per-color stone count over the board (specification-side counterpart of
the counting loop inside `calculateScore`). -/
def countStones (n : Nat) (bd : Board) (color : Nat) : Nat :=
  (allCells n).foldl (fun acc c => if getCell bd c.1 c.2 = color then acc + 1 else acc) 0

/-- Embeds `calculateScore()`: area scoring, `white` carries the hard-coded komi 7.5,
winner by strict comparison (BLACK on the non-greater branch), margin as the
absolute difference. -/
def calculateScore (s : GoState) : ScoreResult :=
  let territory := calculateTerritory s
  let counts :=
    (allCells s.size).foldl
      (fun acc c =>
        let v := getCell s.board c.1 c.2
        if v = BLACK then (acc.1 + 1, acc.2)
        else if v = WHITE then (acc.1, acc.2 + 1)
        else acc)
      ((0 : Nat), (0 : Nat))
  let blackStones := counts.1
  let whiteStones := counts.2
  let blackScore : ℚ := (blackStones : ℚ) + (territory.black : ℚ)
  let whiteScore : ℚ := (whiteStones : ℚ) + (territory.white : ℚ) + 7.5
  { black := blackScore
    white := whiteScore
    blackStones := blackStones
    whiteStones := whiteStones
    blackTerritory := territory.black
    whiteTerritory := territory.white
    winner := if blackScore > whiteScore then BLACK else WHITE
    margin := |blackScore - whiteScore| }

/-- Embeds `findCaptureMoves(validMoves, color)` from ai.js: the moves whose
legality check reports a non-empty capture list. -/
def findCaptureMoves (s : GoState) (validMoves : List Pos) (color : Nat) : List Pos :=
  validMoves.foldl
    (fun acc m =>
      match isValidMove s m.1 m.2 color with
      | .valid cap => if cap.length > 0 then acc ++ [m] else acc
      | .invalid _ => acc)
    []

/-- Embeds `filterSafeMoves(validMoves, color)` from ai.js: speculative placement,
keep moves whose resulting group has at least two liberties. -/
def filterSafeMoves (s : GoState) (validMoves : List Pos) (color : Nat) : List Pos :=
  validMoves.foldl
    (fun acc m =>
      let g := getGroup s.size (setCell s.board m.1 m.2 color) m.1 m.2
      if g.liberties.length ≥ 2 then acc ++ [m] else acc)
    []

/-- Embeds `list[Math.floor(Math.random() * list.length)]` with an injected random
source: draw `k` of `rand`, reduced into range. -/
def pick (rand : Nat → Nat) (k : Nat) (l : List Pos) : Pos :=
  l.getD (rand k % l.length) (-1, -1)

/-- Embeds `getEasyMove(validMoves, color)`: prefer capturing moves, then safe moves,
else any legal move, each uniformly at random. -/
def getEasyMove (s : GoState) (rand : Nat → Nat) (validMoves : List Pos) (color : Nat) : Pos :=
  let captureMoves := findCaptureMoves s validMoves color
  if captureMoves.length > 0 then pick rand 0 captureMoves
  else
    let safeMoves := filterSafeMoves s validMoves color
    if safeMoves.length > 0 then pick rand 1 safeMoves
    else pick rand 2 validMoves

/-- Embeds `getMove(color)` of ai.js specialized to `level = 'easy'`: report no move
when there is no legal move, otherwise delegate to `getEasyMove`. -/
def getMoveEasy (s : GoState) (rand : Nat → Nat) (color : Nat) : Option Pos :=
  let validMoves := getAllValidMoves s color
  if validMoves.length = 0 then none
  else some (getEasyMove s rand validMoves color)

/-- The engine states produced by the engine's own mutators from a fresh
instance (`init`, any sequence of `makeMove` / `pass` / `undoMove` calls). -/
inductive Reachable : GoState → Prop where
  | initial (n : Nat) : Reachable (init n)
  | mv (s : GoState) (x y : Int) (p : Nat) : Reachable s → Reachable (makeMove s x y p).2
  | pa (s : GoState) : Reachable s → Reachable (pass s).2
  | un (s : GoState) : Reachable s → Reachable (undoMove s).2

/-! ### Basic list and board lemmas -/

theorem set_getD_self {α : Type} (l : List α) (i : Nat) (d : α) :
    l.set i (l.getD i d) = l := by
  induction l generalizing i with
  | nil => rfl
  | cons a t ih =>
    cases i with
    | zero => rfl
    | succ n =>
      show a :: t.set n (t.getD n d) = a :: t
      rw [ih n]

theorem getD_set_lt {α : Type} (l : List α) (i : Nat) (a d : α) (h : i < l.length) :
    (l.set i a).getD i d = a := by
  induction l generalizing i with
  | nil => simp at h
  | cons b t ih =>
    cases i with
    | zero => rfl
    | succ n =>
      show (t.set n a).getD n d = a
      exact ih n (by simpa using h)

theorem setCell_restore (b : Board) (x y : Int) (v : Nat) (h : getCell b x y = EMPTY) :
    setCell (setCell b x y v) x y EMPTY = b := by
  unfold setCell getCell at *
  have hrow : (b.getD x.toNat []).set y.toNat EMPTY = b.getD x.toNat [] := by
    conv_lhs => rw [← h]
    exact set_getD_self _ _ _
  by_cases hx : x.toNat < b.length
  · rw [getD_set_lt b x.toNat ((b.getD x.toNat []).set y.toNat v) [] hx,
      List.set_set, List.set_set, hrow]
    exact set_getD_self _ _ _
  · have hge : b.length ≤ x.toNat := Nat.le_of_not_lt hx
    rw [List.set_eq_of_length_le hge, List.set_eq_of_length_le hge]

theorem copyBoard_eq (b : Board) : copyBoard b = b := by
  unfold copyBoard
  simp

theorem isValidMoveS_state (s : GoState) (x y : Int) (p : Nat) :
    (isValidMoveS s x y p).2 = s := by
  simp only [isValidMoveS]
  split
  · rfl
  split
  · rfl
  split
  · rfl
  rename_i h1 h2 h3
  have hr := setCell_restore s.board x y p (not_not.mp h2)
  split
  · rw [hr]
  split
  · rw [hr]
  · rw [hr]

theorem isValidMove_eq (s : GoState) (x y : Int) (p : Nat) :
    isValidMove s x y p = (isValidMoveS s x y p).1 := rfl

/-! ### Group search lemmas -/

theorem mem_insertKey {k p : Pos} {l : List Pos} (h : p ∈ insertKey k l) :
    p = k ∨ p ∈ l := by
  unfold insertKey at h
  split at h
  · exact Or.inr h
  · rcases List.mem_append.mp h with h2 | h2
    · exact Or.inr h2
    · exact Or.inl (by simpa using h2)

theorem getNeighbors_onBoard {n : Nat} {x y : Int} {p : Pos} (h : p ∈ getNeighbors n x y) :
    isOnBoard n p.1 p.2 = true := by
  unfold getNeighbors at h
  exact (List.mem_filter.mp h).2

/-- The liberty lists built by the group BFS only ever contain in-bounds
empty cells. -/
theorem groupScan_libs (bd : Board) (color : Nat) (n : Nat) :
    ∀ (ns : List Pos) (acc : List Pos × List Pos × List Pos),
      (∀ p ∈ acc.2.2, isOnBoard n p.1 p.2 = true ∧ getCell bd p.1 p.2 = EMPTY) →
      (∀ p ∈ ns, isOnBoard n p.1 p.2 = true) →
      ∀ p ∈ (groupScan bd color ns acc).2.2,
        isOnBoard n p.1 p.2 = true ∧ getCell bd p.1 p.2 = EMPTY := by
  intro ns
  induction ns with
  | nil => intro acc hacc _ p hp; exact hacc p hp
  | cons nb rest ih =>
    intro acc hacc hns
    obtain ⟨q, vis, libs⟩ := acc
    simp only [groupScan]
    split
    · apply ih
      · intro p hp
        rcases mem_insertKey hp with rfl | hp2
        · exact ⟨hns _ (List.mem_cons_self _ _), by assumption⟩
        · exact hacc p hp2
      · intro p hp; exact hns p (List.mem_cons_of_mem nb hp)
    · split
      · apply ih
        · intro p hp; exact hacc p hp
        · intro p hp; exact hns p (List.mem_cons_of_mem nb hp)
      · apply ih
        · intro p hp; exact hacc p hp
        · intro p hp; exact hns p (List.mem_cons_of_mem nb hp)

theorem groupLoop_libs (n : Nat) (bd : Board) (color : Nat) :
    ∀ (fuel : Nat) (queue vis stones libs : List Pos),
      (∀ p ∈ libs, isOnBoard n p.1 p.2 = true ∧ getCell bd p.1 p.2 = EMPTY) →
      ∀ p ∈ (groupLoop n bd color fuel queue vis stones libs).2,
        isOnBoard n p.1 p.2 = true ∧ getCell bd p.1 p.2 = EMPTY := by
  intro fuel
  induction fuel with
  | zero => intro queue vis stones libs h p hp; exact h p hp
  | succ f ih =>
    intro queue vis stones libs h
    cases queue with
    | nil => intro p hp; exact h p hp
    | cons c rest =>
      simp only [groupLoop]
      apply ih
      apply groupScan_libs bd color n (getNeighbors n c.1 c.2) (rest, vis, libs) h
      intro p hp
      exact getNeighbors_onBoard hp

theorem getGroup_libs (n : Nat) (bd : Board) (x y : Int) :
    ∀ p ∈ (getGroup n bd x y).liberties,
      isOnBoard n p.1 p.2 = true ∧ getCell bd p.1 p.2 = EMPTY := by
  intro p hp
  unfold getGroup at hp
  by_cases hc : getCell bd x y = EMPTY
  · simp [hc] at hp
  · simp only [hc, if_false, ite_false] at hp
    exact groupLoop_libs n bd _ _ _ _ _ _ (by intro q hq; simp at hq) p hp

/-! ### makeMove decomposition lemmas -/

theorem makeMove_valid (s : GoState) (x y : Int) (p : Nat) (cap : List Pos)
    (hv : (isValidMoveS s x y p).1 = .valid cap) :
    makeMove s x y p = makeMoveCore s x y p := by
  unfold makeMove
  rw [hv, isValidMoveS_state]

theorem makeMove_invalid (s : GoState) (x y : Int) (p : Nat) (r : String)
    (hv : (isValidMoveS s x y p).1 = .invalid r) :
    makeMove s x y p = (.failure r, s) := by
  unfold makeMove
  rw [hv, isValidMoveS_state]

theorem makeMoveCore_fst (s0 : GoState) (x y : Int) (p : Nat) :
    (makeMoveCore s0 x y p).1 =
      .success (captureStep s0 x y p).2.2.2
        (koCheck s0.size (captureStep s0 x y p).1 x y (captureStep s0 x y p).2.2.2) := rfl

theorem makeMoveCore_koPoint (s0 : GoState) (x y : Int) (p : Nat) :
    (makeMoveCore s0 x y p).2.koPoint =
      koCheck s0.size (captureStep s0 x y p).1 x y (captureStep s0 x y p).2.2.2 := rfl

theorem makeMoveCore_board (s0 : GoState) (x y : Int) (p : Nat) :
    (makeMoveCore s0 x y p).2.board = (captureStep s0 x y p).1 := rfl

theorem makeMoveCore_size (s0 : GoState) (x y : Int) (p : Nat) :
    (makeMoveCore s0 x y p).2.size = s0.size := rfl

theorem makeMoveCore_saveShape (s0 : GoState) (x y : Int) (p : Nat) :
    ∃ s1 : GoState, (makeMoveCore s0 x y p).2 = saveBoardState s1 ∧
      s1.boardHistory = s0.boardHistory :=
  ⟨_, rfl, rfl⟩

theorem koCheck_ne_none_iff (n : Nat) (bd : Board) (x y : Int) (cc : Nat) :
    koCheck n bd x y cc ≠ none ↔
      cc = 1 ∧ (getGroup n bd x y).stones.length = 1 ∧
        (getGroup n bd x y).liberties.length = 1 := by
  unfold koCheck
  by_cases h1 : cc = 1
  · simp only [h1, if_true, ite_true, true_and]
    by_cases h2 : (getGroup n bd x y).stones.length = 1 ∧
        (getGroup n bd x y).liberties.length = 1
    · obtain ⟨a, ha⟩ := List.length_eq_one.mp h2.2
      simp [h2, ha]
    · simp [h2]
  · simp [h1]

theorem koCheck_some_mem {n : Nat} {bd : Board} {x y : Int} {cc : Nat} {pt : Pos}
    (h : koCheck n bd x y cc = some pt) : pt ∈ (getGroup n bd x y).liberties := by
  simp only [koCheck] at h
  split at h
  · split at h
    · exact List.mem_of_mem_head? h
    · cases h
  · cases h

/-- With no ko point stored, `isValidMove` can never reject for ko. -/
theorem noKo_not_koReason (t : GoState) (hk : t.koPoint = none) (x y : Int) (q : Nat) :
    isValidMove t x y q ≠ .invalid "打劫禁入点" := by
  have hko : isKoPoint t x y = false := by simp [isKoPoint, hk]
  have hs1 : ("超出棋盘范围" : String) ≠ "打劫禁入点" := by decide
  have hs2 : ("该位置已有棋子" : String) ≠ "打劫禁入点" := by decide
  have hs3 : ("禁止自杀" : String) ≠ "打劫禁入点" := by decide
  simp only [isValidMove, isValidMoveS, hko]
  intro hcon
  split at hcon
  · exact hs1 (by injection hcon)
  split at hcon
  · exact hs2 (by injection hcon)
  split at hcon
  · rename_i hf
    exact absurd hf (by decide)
  split at hcon
  · cases hcon
  split at hcon
  · exact hs3 (by injection hcon)
  · cases hcon

/-- Embeds `saveBoardState` always leaves its own snapshot on top of the history. -/
theorem histOK_saveBoardState (t : GoState) :
    (saveBoardState t).boardHistory.getLast? = some (snapOf (saveBoardState t)) := by
  have : snapOf (saveBoardState t) = snapOf t := rfl
  rw [this]
  simp [saveBoardState, List.getLast?_concat]

/-! ### Pass lemmas -/

theorem lastTwoArePasses_concat (mh : List MoveRec) (r : MoveRec) (hr : r.isPass = true) :
    lastTwoArePasses (mh ++ [r]) = true ↔
      ∃ pre a b, mh ++ [r] = pre ++ [a, b] ∧ a.isPass = true ∧ b.isPass = true := by
  rcases List.eq_nil_or_concat mh with hnil | ⟨pre0, a0, hcc⟩
  · subst hnil
    simp only [List.nil_append]
    constructor
    · intro h
      exact absurd h (by simp [lastTwoArePasses])
    · rintro ⟨pre, a, b, heq, -, -⟩
      exfalso
      have := congrArg List.length heq
      simp at this
  · rw [hcc, List.concat_eq_append]
    have hlen : (pre0 ++ [a0] ++ [r]).length = pre0.length + 2 := by simp
    have hge : (pre0 ++ [a0] ++ [r]).length ≥ 2 := by omega
    have hdrop : (pre0 ++ [a0] ++ [r]).drop ((pre0 ++ [a0] ++ [r]).length - 2) = [a0, r] := by
      rw [hlen]
      have h2 : pre0.length + 2 - 2 = pre0.length := by omega
      rw [h2, List.append_assoc]
      exact List.drop_left' rfl
    have hval : lastTwoArePasses (pre0 ++ [a0] ++ [r]) = (a0.isPass && r.isPass) := by
      simp only [lastTwoArePasses]
      rw [if_pos hge, hdrop]
    rw [hval]
    constructor
    · intro h
      refine ⟨pre0, a0, r, by simp, ?_, hr⟩
      simpa [hr] using h
    · rintro ⟨pre, a, b, heq, ha, hb⟩
      rw [List.append_assoc] at heq
      have hplen : pre0.length = pre.length := by
        have := congrArg List.length heq
        simp at this
        omega
      obtain ⟨-, htail⟩ := List.append_inj heq hplen
      have ha0 : a0 = a := by injection htail
      rw [ha0, ha, hr]
      rfl

/-! ### Scoring lemmas -/

theorem calculateScore_black_eq (s : GoState) :
    (calculateScore s).black =
      ((calculateScore s).blackStones : ℚ) + ((calculateScore s).blackTerritory : ℚ) := rfl

theorem calculateScore_white_eq (s : GoState) :
    (calculateScore s).white =
      ((calculateScore s).whiteStones : ℚ) + ((calculateScore s).whiteTerritory : ℚ) + 7.5 := rfl

theorem calculateScore_winner_eq (s : GoState) :
    (calculateScore s).winner =
      if (calculateScore s).black > (calculateScore s).white then BLACK else WHITE := rfl

theorem calculateScore_margin_eq (s : GoState) :
    (calculateScore s).margin = |(calculateScore s).black - (calculateScore s).white| := rfl

theorem natCast_ne_natCast_add_komi (a b : Nat) : ((a : ℚ)) ≠ (b : ℚ) + 7.5 := by
  intro h
  have h2 : ((2 * a : ℕ) : ℚ) = ((2 * b + 15 : ℕ) : ℚ) := by
    push_cast
    linarith
  have h3 : 2 * a = 2 * b + 15 := Nat.cast_injective h2
  omega

theorem score_black_nat (s : GoState) :
    (calculateScore s).black =
      (((calculateScore s).blackStones + (calculateScore s).blackTerritory : ℕ) : ℚ) := by
  rw [calculateScore_black_eq]
  push_cast
  ring

theorem score_white_nat (s : GoState) :
    (calculateScore s).white =
      (((calculateScore s).whiteStones + (calculateScore s).whiteTerritory : ℕ) : ℚ) + 7.5 := by
  rw [calculateScore_white_eq]
  push_cast
  ring

theorem score_ne (s : GoState) : (calculateScore s).black ≠ (calculateScore s).white := by
  rw [score_black_nat, score_white_nat]
  exact natCast_ne_natCast_add_komi _ _

theorem winner_black_iff (s : GoState) :
    (calculateScore s).winner = BLACK ↔
      (calculateScore s).black > (calculateScore s).white := by
  rw [calculateScore_winner_eq]
  by_cases hgt : (calculateScore s).black > (calculateScore s).white
  · simp [hgt]
  · simp [hgt, BLACK, WHITE]

theorem winner_white_iff (s : GoState) :
    (calculateScore s).winner = WHITE ↔
      (calculateScore s).white > (calculateScore s).black := by
  rw [calculateScore_winner_eq]
  by_cases hgt : (calculateScore s).black > (calculateScore s).white
  · simp only [hgt, if_pos]
    constructor
    · intro h
      exact absurd h (by simp [BLACK, WHITE])
    · intro h
      exact absurd (lt_trans h hgt) (lt_irrefl _)
  · simp only [hgt, if_neg, ite_false]
    constructor
    · intro _
      exact lt_of_le_of_ne (le_of_not_lt hgt) (score_ne s)
    · intro _
      trivial

theorem territoryFold_skip (n : Nat) (bd : Board) :
    ∀ (cells : List Pos) (vis : List Pos) (t : Territory),
      (∀ c ∈ cells, getCell bd c.1 c.2 ≠ EMPTY) →
      territoryFold n bd cells vis t = (vis, t) := by
  intro cells
  induction cells with
  | nil => intro vis t _; rfl
  | cons c rest ih =>
    intro vis t h
    have hc : getCell bd c.1 c.2 ≠ EMPTY := h c (List.mem_cons_self _ _)
    simp only [territoryFold, if_pos (Or.inl hc)]
    exact ih vis t (fun d hd => h d (List.mem_cons_of_mem _ hd))

theorem countsFold_eq (bd : Board) :
    ∀ (cells : List Pos) (a b : Nat),
      (cells.foldl
        (fun acc c =>
          let v := getCell bd c.1 c.2
          if v = BLACK then (acc.1 + 1, acc.2)
          else if v = WHITE then (acc.1, acc.2 + 1)
          else acc)
        (a, b)) =
      (cells.foldl (fun acc c => if getCell bd c.1 c.2 = BLACK then acc + 1 else acc) a,
       cells.foldl (fun acc c => if getCell bd c.1 c.2 = WHITE then acc + 1 else acc) b) := by
  intro cells
  induction cells with
  | nil => intro a b; rfl
  | cons c rest ih =>
    intro a b
    simp only [List.foldl_cons]
    by_cases hB : getCell bd c.1 c.2 = BLACK
    · have hW : ¬ getCell bd c.1 c.2 = WHITE := by rw [hB]; decide
      simp only [hB, hW, if_pos rfl, if_neg hW]
      exact ih (a + 1) b
    · by_cases hW : getCell bd c.1 c.2 = WHITE
      · simp only [hB, hW, if_neg hB, if_pos rfl]
        exact ih a (b + 1)
      · simp only [if_neg hB, if_neg hW]
        exact ih a b

theorem calculateScore_blackStones_eq (s : GoState) :
    (calculateScore s).blackStones = countStones s.size s.board BLACK := by
  have h := countsFold_eq s.board (allCells s.size) 0 0
  have hdef : (calculateScore s).blackStones =
      ((allCells s.size).foldl
        (fun acc c =>
          let v := getCell s.board c.1 c.2
          if v = BLACK then (acc.1 + 1, acc.2)
          else if v = WHITE then (acc.1, acc.2 + 1)
          else acc)
        ((0 : Nat), (0 : Nat))).1 := rfl
  rw [hdef, h]
  rfl

theorem calculateScore_whiteStones_eq (s : GoState) :
    (calculateScore s).whiteStones = countStones s.size s.board WHITE := by
  have h := countsFold_eq s.board (allCells s.size) 0 0
  have hdef : (calculateScore s).whiteStones =
      ((allCells s.size).foldl
        (fun acc c =>
          let v := getCell s.board c.1 c.2
          if v = BLACK then (acc.1 + 1, acc.2)
          else if v = WHITE then (acc.1, acc.2 + 1)
          else acc)
        ((0 : Nat), (0 : Nat))).2 := rfl
  rw [hdef, h]
  rfl

theorem calculateTerritory_full (s : GoState)
    (hfull : ∀ c ∈ allCells s.size, getCell s.board c.1 c.2 ≠ EMPTY) :
    calculateTerritory s = ⟨0, 0, 0⟩ := by
  unfold calculateTerritory
  rw [territoryFold_skip s.size s.board (allCells s.size) [] ⟨0, 0, 0⟩ hfull]

/-! ### Claim theorems -/

/-- C6: `isValidMove` leaves the engine state (in particular the board)
bit-identical to its pre-check value, whether it accepts or rejects, and every
rejection reason is one of: out of range, occupied, ko violation, suicide. -/
theorem claim6_isValidMove_pure (s : GoState) (x y : Int) (p : Nat) :
    (isValidMoveS s x y p).2 = s ∧
    (∀ r : String, (isValidMoveS s x y p).1 = .invalid r →
      r = "超出棋盘范围" ∨ r = "该位置已有棋子" ∨ r = "打劫禁入点" ∨ r = "禁止自杀") := by
  refine ⟨isValidMoveS_state s x y p, ?_⟩
  intro r h
  simp only [isValidMoveS] at h
  split at h
  · exact Or.inl (by injection h with h2; exact h2.symm)
  split at h
  · exact Or.inr (Or.inl (by injection h with h2; exact h2.symm))
  split at h
  · exact Or.inr (Or.inr (Or.inl (by injection h with h2; exact h2.symm)))
  split at h
  · cases h
  split at h
  · exact Or.inr (Or.inr (Or.inr (by injection h with h2; exact h2.symm)))
  · cases h

/-- C6 witness: on a fresh 2x2 board the check at (0,0) leaves the state
unchanged, and the out-of-range reason is among the documented reasons. -/
theorem claim6_witness :
    (isValidMoveS (init 2) 0 0 BLACK).2 = init 2 ∧
    ("超出棋盘范围" = "超出棋盘范围" ∨ "超出棋盘范围" = "该位置已有棋子" ∨
      "超出棋盘范围" = "打劫禁入点" ∨ "超出棋盘范围" = "禁止自杀") :=
  ⟨(claim6_isValidMove_pure (init 2) 0 0 BLACK).1,
   (claim6_isValidMove_pure (init 2) 9 9 BLACK).2 "超出棋盘范围" (by decide)⟩

/-- C3: on an empty, in-bounds, non-ko point, a placement that captures at
least one opposing stone is accepted with exactly that capture list (its own
liberties are never consulted); a placement that captures nothing and whose
resulting group has zero liberties is rejected as suicide; otherwise the move
is accepted with an empty capture list. -/
theorem claim3_capture_before_suicide (s : GoState) (x y : Int) (p : Nat)
    (h1 : isOnBoard s.size x y = true)
    (h2 : getCell s.board x y = EMPTY)
    (h3 : isKoPoint s x y = false) :
    (getCapturedStones s.size (setCell s.board x y p) x y p ≠ [] →
        isValidMove s x y p =
          .valid (getCapturedStones s.size (setCell s.board x y p) x y p)) ∧
    ((getCapturedStones s.size (setCell s.board x y p) x y p = [] ∧
        (getGroup s.size (setCell s.board x y p) x y).liberties.length = 0) →
        isValidMove s x y p = .invalid "禁止自杀") ∧
    ((getCapturedStones s.size (setCell s.board x y p) x y p = [] ∧
        (getGroup s.size (setCell s.board x y p) x y).liberties.length ≠ 0) →
        isValidMove s x y p = .valid []) := by
  refine ⟨?_, ?_, ?_⟩
  · intro hc
    have hlen : 0 < (getCapturedStones s.size (setCell s.board x y p) x y p).length :=
      List.length_pos.mpr hc
    simp [isValidMove, isValidMoveS, h1, h2, h3, hlen]
  · rintro ⟨hc, hl⟩
    simp [isValidMove, isValidMoveS, h1, h2, h3, hc, hasLibertyAfterMove, hl]
  · rintro ⟨hc, hl⟩
    have hpos : 0 < (getGroup s.size (setCell s.board x y p) x y).liberties.length :=
      Nat.pos_of_ne_zero hl
    simp [isValidMove, isValidMoveS, h1, h2, h3, hc, hasLibertyAfterMove, hpos]

/-- C3 witness: the first stone on an empty 3x3 board captures nothing and is
accepted with an empty capture set. -/
theorem claim3_witness : isValidMove (init 3) 0 0 BLACK = .valid [] :=
  (claim3_capture_before_suicide (init 3) 0 0 BLACK (by decide) (by decide)
    (by decide)).2.2 (by decide)

/-- C2 amended: the `getBoardState`/`loadState` round-trip restores the board
grid, current player, capture tallies, last move and ko point exactly, but
the exported record carries no move log or snapshot history, so both are
reset to empty by the restore. -/
theorem claim2_roundtrip_amended (s : GoState) :
    (loadState s (getBoardState s)).size = s.size ∧
    (loadState s (getBoardState s)).board = s.board ∧
    (loadState s (getBoardState s)).currentPlayer = s.currentPlayer ∧
    (loadState s (getBoardState s)).capturedBlack = s.capturedBlack ∧
    (loadState s (getBoardState s)).capturedWhite = s.capturedWhite ∧
    (loadState s (getBoardState s)).lastMove = s.lastMove ∧
    (loadState s (getBoardState s)).koPoint = s.koPoint ∧
    (loadState s (getBoardState s)).moveHistory = [] ∧
    (loadState s (getBoardState s)).boardHistory = [] := by
  refine ⟨rfl, ?_, rfl, rfl, rfl, rfl, rfl, rfl, rfl⟩
  show copyBoard (copyBoard s.board) = s.board
  rw [copyBoard_eq, copyBoard_eq]

/-- The engine state after one legal move from a fresh 2x2 board, used to
refute the claim that the save/restore round-trip preserves the histories. -/
def c2state : GoState := (makeMove (init 2) 0 0 BLACK).2

/-- C2 counterexample: after one applied move, undo is available and the move
log is non-empty; restoring the record returned by `getBoardState` empties
both histories, so undo fails afterwards — the round-trip is not exact. -/
theorem claim2_counterexample :
    c2state.moveHistory ≠ [] ∧
    c2state.boardHistory.length = 2 ∧
    (undoMove c2state).1 = .ok ∧
    (loadState c2state (getBoardState c2state)).moveHistory = [] ∧
    (loadState c2state (getBoardState c2state)).boardHistory = [] ∧
    (undoMove (loadState c2state (getBoardState c2state))).1 =
      .failure "没有可以悔棋的步骤" := by
  refine ⟨by decide, by decide, by decide, by decide, by decide, by decide⟩

/-- C8: `pass` always succeeds; it reports game end exactly when, after the
pass record is appended, the two most recent log entries are both passes; a
single pass from an empty log reports no game end while an immediately
following second pass does; and every pass switches the player and clears the
ko point. -/
theorem claim8_pass_semantics (s : GoState) :
    (pass s).1.success = true ∧
    ((pass s).1.gameEnd = true ↔
      ∃ pre a b, (pass s).2.moveHistory = pre ++ [a, b] ∧
        a.isPass = true ∧ b.isPass = true) ∧
    (pass s).2.currentPlayer = getOpponent s.currentPlayer ∧
    (pass s).2.koPoint = none ∧
    (s.moveHistory = [] →
      (pass s).1.gameEnd = false ∧ (pass (pass s).2).1.gameEnd = true) := by
  have hmh : (pass s).2.moveHistory =
      s.moveHistory ++ [⟨-1, -1, s.currentPlayer, 0, true⟩] := rfl
  have hg : (pass s).1.gameEnd =
      lastTwoArePasses (s.moveHistory ++ [⟨-1, -1, s.currentPlayer, 0, true⟩]) := rfl
  refine ⟨rfl, ?_, rfl, rfl, ?_⟩
  · rw [hmh, hg]
    exact lastTwoArePasses_concat _ _ rfl
  · intro hnil
    constructor
    · rw [hg, hnil]
      rfl
    · have hg2 : (pass (pass s).2).1.gameEnd =
        lastTwoArePasses ((pass s).2.moveHistory ++
          [⟨-1, -1, (pass s).2.currentPlayer, 0, true⟩]) := rfl
      rw [hg2, hmh, hnil]
      rfl

/-- C8 witness: from the fresh board (empty move log), one pass reports no
game end and a second pass reports game end. -/
theorem claim8_witness :
    (pass (init 2)).1.gameEnd = false ∧ (pass (pass (init 2)).2).1.gameEnd = true :=
  (claim8_pass_semantics (init 2)).2.2.2.2 rfl

/-- C10: black's score is a natural number, white's is a natural number plus
the hard-coded komi 7.5, so the scores are never equal; the winner is BLACK
exactly when black's score is strictly greater and WHITE otherwise — the
exact-tie case is unreachable. -/
theorem claim10_komi_no_tie (s : GoState) :
    (∃ n : ℕ, (calculateScore s).black = (n : ℚ)) ∧
    (∃ m : ℕ, (calculateScore s).white = (m : ℚ) + 7.5) ∧
    (calculateScore s).black ≠ (calculateScore s).white ∧
    ((calculateScore s).winner = BLACK ↔
      (calculateScore s).black > (calculateScore s).white) ∧
    ((calculateScore s).winner = WHITE ↔
      ¬ (calculateScore s).black > (calculateScore s).white) := by
  refine ⟨⟨_, score_black_nat s⟩, ⟨_, score_white_nat s⟩, score_ne s, winner_black_iff s, ?_⟩
  rw [winner_white_iff]
  constructor
  · intro h
    exact not_lt_of_gt h
  · intro h
    exact lt_of_le_of_ne (le_of_not_lt h) (score_ne s)

/-- C10 witness: on the fresh 2x2 board the two scores differ and the winner
is WHITE (black 0 vs white 7.5). -/
theorem claim10_witness :
    (calculateScore (init 2)).black ≠ (calculateScore (init 2)).white ∧
    ((calculateScore (init 2)).winner = WHITE ↔
      ¬ (calculateScore (init 2)).black > (calculateScore (init 2)).white) :=
  ⟨(claim10_komi_no_tie (init 2)).2.2.1, (claim10_komi_no_tie (init 2)).2.2.2.2⟩

/-- C7: on a board with no empty point the score is exactly the stone counts
(plus komi for white) independent of history; in general each side's score is
its stones plus its credited territory, the winner is the side with the
strictly greater score, and the margin is the absolute difference. -/
theorem claim7_score_decomposition (s : GoState) :
    ((∀ c ∈ allCells s.size, getCell s.board c.1 c.2 ≠ EMPTY) →
      (calculateScore s).black = (countStones s.size s.board BLACK : ℚ) ∧
      (calculateScore s).white = (countStones s.size s.board WHITE : ℚ) + 7.5) ∧
    (calculateScore s).blackStones = countStones s.size s.board BLACK ∧
    (calculateScore s).whiteStones = countStones s.size s.board WHITE ∧
    (calculateScore s).black =
      ((calculateScore s).blackStones : ℚ) + ((calculateScore s).blackTerritory : ℚ) ∧
    (calculateScore s).white =
      ((calculateScore s).whiteStones : ℚ) + ((calculateScore s).whiteTerritory : ℚ) + 7.5 ∧
    ((calculateScore s).winner = BLACK ↔
      (calculateScore s).black > (calculateScore s).white) ∧
    ((calculateScore s).winner = WHITE ↔
      (calculateScore s).white > (calculateScore s).black) ∧
    (calculateScore s).margin = |(calculateScore s).black - (calculateScore s).white| ∧
    (∀ t : GoState, t.size = s.size → t.board = s.board →
      calculateScore t = calculateScore s) := by
  refine ⟨?_, calculateScore_blackStones_eq s, calculateScore_whiteStones_eq s,
    calculateScore_black_eq s, calculateScore_white_eq s, winner_black_iff s,
    winner_white_iff s, calculateScore_margin_eq s, ?_⟩
  · intro hfull
    have ht := calculateTerritory_full s hfull
    have hbt : (calculateScore s).blackTerritory = 0 := by
      show (calculateTerritory s).black = 0
      rw [ht]
    have hwt : (calculateScore s).whiteTerritory = 0 := by
      show (calculateTerritory s).white = 0
      rw [ht]
    constructor
    · rw [calculateScore_black_eq, hbt, ← calculateScore_blackStones_eq s]
      push_cast
      ring
    · rw [calculateScore_white_eq, hwt, ← calculateScore_whiteStones_eq s]
      push_cast
      ring
  · intro t h1 h2
    unfold calculateScore calculateTerritory
    rw [h1, h2]

/-- C9: whenever the side to move has exactly one legal move and its legality
check reports a non-empty capture set, the easy-tier selector returns that
move for every random source — its output is deterministic. -/
theorem claim9_easy_forced_capture (rand : Nat → Nat) (s : GoState) (color : Nat)
    (m : Pos) (cap : List Pos)
    (h1 : getAllValidMoves s color = [m])
    (h2 : isValidMove s m.1 m.2 color = .valid cap)
    (h3 : cap ≠ []) :
    getMoveEasy s rand color = some m := by
  have hlen : 0 < cap.length := List.length_pos.mpr h3
  have hfc : findCaptureMoves s [m] color = [m] := by
    simp only [findCaptureMoves, List.foldl_cons, List.foldl_nil, h2]
    simp [hlen]
  simp only [getMoveEasy, h1]
  rw [if_neg (by simp)]
  simp only [getEasyMove, hfc]
  rw [if_pos (by simp)]
  simp [pick, Nat.mod_one]

/-- A 2x2 position in which BLACK's only legal move is (0,0), which captures
the whole white group. -/
def c9state : GoState :=
  { size := 2, board := [[0, 2], [2, 2]], currentPlayer := BLACK, capturedBlack := 0,
    capturedWhite := 0, lastMove := none, koPoint := none, moveHistory := [],
    boardHistory := [] }

/-- C9 witness: two unrelated random sources both yield the unique capturing
move. -/
theorem claim9_witness :
    getMoveEasy c9state (fun _ => 0) BLACK = some (0, 0) ∧
    getMoveEasy c9state (fun n => 37 * n + 11) BLACK = some (0, 0) :=
  ⟨claim9_easy_forced_capture (fun _ => 0) c9state BLACK (0, 0)
      [(1, 0), (1, 1), (0, 1), (0, 1), (1, 1), (1, 0)] (by decide) (by decide) (by decide),
   claim9_easy_forced_capture (fun n => 37 * n + 11) c9state BLACK (0, 0)
      [(1, 0), (1, 1), (0, 1), (0, 1), (1, 1), (1, 0)] (by decide) (by decide) (by decide)⟩

/-! ### Undo and history lemmas for C5 -/

/-- The top of the snapshot history is always the snapshot of the live state. -/
def histOK (s : GoState) : Prop :=
  s.boardHistory.getLast? = some (snapOf s)

theorem reachable_histOK {s : GoState} (h : Reachable s) : histOK s := by
  induction h with
  | initial n => exact histOK_saveBoardState _
  | mv s x y p _ ih =>
    cases hv : (isValidMoveS s x y p).1 with
    | invalid r =>
      show histOK (makeMove s x y p).2
      rw [makeMove_invalid s x y p r hv]
      exact ih
    | valid cap =>
      show histOK (makeMove s x y p).2
      rw [makeMove_valid s x y p cap hv]
      obtain ⟨s1, heq, -⟩ := makeMoveCore_saveShape s x y p
      rw [heq]
      exact histOK_saveBoardState s1
  | pa s _ _ => exact histOK_saveBoardState _
  | un s _ ih =>
    show histOK (undoMove s).2
    by_cases hlen : s.boardHistory.length ≤ 1
    · rw [show (undoMove s).2 = s from by simp [undoMove, hlen]]
      exact ih
    · cases hlast : s.boardHistory.dropLast.getLast? with
      | none =>
        rw [show (undoMove s).2 = s from by simp [undoMove, hlen, hlast]]
        exact ih
      | some prev =>
        have hu : (undoMove s).2 =
            { s with
              board := copyBoard prev.board
              currentPlayer := prev.currentPlayer
              capturedBlack := prev.capturedBlack
              capturedWhite := prev.capturedWhite
              koPoint := prev.koPoint
              lastMove := prev.lastMove
              moveHistory := s.moveHistory.dropLast
              boardHistory := s.boardHistory.dropLast } := by
          simp [undoMove, hlen, hlast]
        rw [hu]
        show s.boardHistory.dropLast.getLast? = some _
        rw [hlast]
        have : snapOf
            { s with
              board := copyBoard prev.board
              currentPlayer := prev.currentPlayer
              capturedBlack := prev.capturedBlack
              capturedWhite := prev.capturedWhite
              koPoint := prev.koPoint
              lastMove := prev.lastMove
              moveHistory := s.moveHistory.dropLast
              boardHistory := s.boardHistory.dropLast } = prev := by
          show Snapshot.mk (copyBoard (copyBoard prev.board)) prev.currentPlayer
            prev.capturedBlack prev.capturedWhite prev.koPoint prev.lastMove = prev
          rw [copyBoard_eq, copyBoard_eq]
        rw [this]

/-- C5: from any reachable state, a legal `makeMove` followed by `undoMove`
succeeds and restores board, current player, both capture tallies, ko point
and last move to their exact pre-move values. -/
theorem claim5_undo_roundtrip (s : GoState) (x y : Int) (p : Nat) (cap : List Pos)
    (hr : Reachable s) (hv : (isValidMoveS s x y p).1 = .valid cap) :
    (∃ c k, (makeMove s x y p).1 = .success c k) ∧
    (undoMove (makeMove s x y p).2).1 = .ok ∧
    (undoMove (makeMove s x y p).2).2.board = s.board ∧
    (undoMove (makeMove s x y p).2).2.currentPlayer = s.currentPlayer ∧
    (undoMove (makeMove s x y p).2).2.capturedBlack = s.capturedBlack ∧
    (undoMove (makeMove s x y p).2).2.capturedWhite = s.capturedWhite ∧
    (undoMove (makeMove s x y p).2).2.koPoint = s.koPoint ∧
    (undoMove (makeMove s x y p).2).2.lastMove = s.lastMove := by
  have hinv : histOK s := reachable_histOK hr
  have hne : s.boardHistory ≠ [] := by
    intro hnil
    unfold histOK at hinv
    rw [hnil] at hinv
    simp at hinv
  have hmm : makeMove s x y p = makeMoveCore s x y p := makeMove_valid s x y p cap hv
  obtain ⟨s1, hs1, hbh1⟩ := makeMoveCore_saveShape s x y p
  have hs2 : (makeMove s x y p).2 = saveBoardState s1 := by rw [hmm, hs1]
  have hbh2 : (makeMove s x y p).2.boardHistory = s.boardHistory ++ [snapOf s1] := by
    rw [hs2]
    show s1.boardHistory ++ [snapOf s1] = _
    rw [hbh1]
  have hlen : ¬ ((makeMove s x y p).2.boardHistory.length ≤ 1) := by
    rw [hbh2]
    have := List.length_pos.mpr hne
    simp only [List.length_append, List.length_cons, List.length_nil]
    omega
  have hdrop : (makeMove s x y p).2.boardHistory.dropLast = s.boardHistory := by
    rw [hbh2]
    exact List.dropLast_concat
  have hlast : (makeMove s x y p).2.boardHistory.dropLast.getLast? = some (snapOf s) := by
    rw [hdrop]
    exact hinv
  have hu : undoMove (makeMove s x y p).2 =
      (.ok,
        { (makeMove s x y p).2 with
          board := copyBoard (snapOf s).board
          currentPlayer := (snapOf s).currentPlayer
          capturedBlack := (snapOf s).capturedBlack
          capturedWhite := (snapOf s).capturedWhite
          koPoint := (snapOf s).koPoint
          lastMove := (snapOf s).lastMove
          moveHistory := (makeMove s x y p).2.moveHistory.dropLast
          boardHistory := (makeMove s x y p).2.boardHistory.dropLast }) := by
    simp [undoMove, hlen, hlast]
  refine ⟨⟨_, _, by rw [hmm]; exact makeMoveCore_fst s x y p⟩, ?_, ?_, ?_, ?_, ?_, ?_, ?_⟩
  · rw [hu]
  · rw [hu]
    show copyBoard (copyBoard s.board) = s.board
    rw [copyBoard_eq, copyBoard_eq]
  · rw [hu]
    rfl
  · rw [hu]
    rfl
  · rw [hu]
    rfl
  · rw [hu]
    rfl
  · rw [hu]
    rfl

/-- C5 witness: the first move on a fresh 2x2 board, undone, restores the
empty board and all scalar fields. -/
theorem claim5_witness :
    (undoMove (makeMove (init 2) 0 0 BLACK).2).1 = .ok ∧
    (undoMove (makeMove (init 2) 0 0 BLACK).2).2.board = (init 2).board ∧
    (undoMove (makeMove (init 2) 0 0 BLACK).2).2.currentPlayer = (init 2).currentPlayer ∧
    (undoMove (makeMove (init 2) 0 0 BLACK).2).2.koPoint = (init 2).koPoint := by
  have h := claim5_undo_roundtrip (init 2) 0 0 BLACK [] (Reachable.initial 2) (by decide)
  exact ⟨h.2.1, h.2.2.1, h.2.2.2.1, h.2.2.2.2.2.2.1⟩

/-! ### Ko lemmas and claim C4 -/

/-- C4 amended: after every successful `makeMove` the ko point is set iff the
move captured exactly one stone and the placed group is a single stone with
exactly one liberty; while set, `isValidMove` on that point rejects with the
ko-violation reason for either player; a following `pass` clears the ko point,
after which a move on that point is no longer rejected for ko (although it
may now be rejected for another reason, such as suicide). -/
theorem claim4_amended (s : GoState) (x y : Int) (p c : Nat) (k : Option Pos)
    (s2 : GoState) (h : makeMove s x y p = (.success c k, s2)) :
    s2.koPoint = k ∧
    (s2.koPoint ≠ none ↔ c = 1 ∧
      (getGroup s2.size s2.board x y).stones.length = 1 ∧
      (getGroup s2.size s2.board x y).liberties.length = 1) ∧
    (∀ pt : Pos, ∀ q : Nat, s2.koPoint = some pt →
      isValidMove s2 pt.1 pt.2 q = .invalid "打劫禁入点") ∧
    (pass s2).2.koPoint = none ∧
    (∀ pt : Pos, ∀ q : Nat, s2.koPoint = some pt →
      isValidMove (pass s2).2 pt.1 pt.2 q ≠ .invalid "打劫禁入点") := by
  cases hv : (isValidMoveS s x y p).1 with
  | invalid r =>
    rw [makeMove_invalid s x y p r hv] at h
    simp at h
  | valid cap =>
    rw [makeMove_valid s x y p cap hv] at h
    have h1 : (makeMoveCore s x y p).1 = .success c k := by rw [h]
    have h2 : (makeMoveCore s x y p).2 = s2 := by rw [h]
    rw [makeMoveCore_fst] at h1
    have hc : (captureStep s x y p).2.2.2 = c := by injection h1
    have hk : koCheck s.size (captureStep s x y p).1 x y (captureStep s x y p).2.2.2 = k := by
      injection h1
    have hko : s2.koPoint = k := by rw [← h2, makeMoveCore_koPoint, hk]
    have hboard : s2.board = (captureStep s x y p).1 := by rw [← h2, makeMoveCore_board]
    have hsize : s2.size = s.size := by rw [← h2, makeMoveCore_size]
    refine ⟨hko, ?_, ?_, rfl, ?_⟩
    · rw [hko, ← hk, hboard, hsize, ← hc]
      exact koCheck_ne_none_iff s.size (captureStep s x y p).1 x y (captureStep s x y p).2.2.2
    · intro pt q hpt
      have hkpt : k = some pt := by rw [← hko]; exact hpt
      have hkc : koCheck s.size (captureStep s x y p).1 x y (captureStep s x y p).2.2.2 =
          some pt := hk.trans hkpt
      have hprop := getGroup_libs s.size (captureStep s x y p).1 x y pt (koCheck_some_mem hkc)
      have c1 : isOnBoard s2.size pt.1 pt.2 = true := by rw [hsize]; exact hprop.1
      have c2 : getCell s2.board pt.1 pt.2 = EMPTY := by rw [hboard]; exact hprop.2
      have c3 : isKoPoint s2 pt.1 pt.2 = true := by simp [isKoPoint, hpt]
      simp [isValidMove, isValidMoveS, c1, c2, c3]
    · intro pt q _
      exact noKo_not_koReason (pass s2).2 rfl pt.1 pt.2 q

/-- The 4x4 position reached by the legal sequence B(1,0) W(0,0) B(3,3)
W(0,2) B(3,2) W(1,1) from a fresh board; BLACK to move can now capture
W(0,0) by playing (0,1), creating the one-for-one ko shape at (0,0). -/
def koState6 : GoState :=
  (makeMove (makeMove (makeMove (makeMove (makeMove (makeMove (init 4)
    1 0 BLACK).2 0 0 WHITE).2 3 3 BLACK).2 0 2 WHITE).2 3 2 BLACK).2 1 1 WHITE).2

/-- The position after BLACK's ko-creating capture at (0,1). -/
def koState7 : GoState := (makeMove koState6 0 1 BLACK).2

/-- The position after WHITE's reply at (2,0), which clears the ko point. -/
def koState8 : GoState := (makeMove koState7 2 0 WHITE).2

/-- C4 counterexample: in a position reached from a fresh 4x4 board by legal
moves only, BLACK's capture at (0,1) sets the ko point (0,0); WHITE's next
move at (2,0) succeeds and clears the ko point, leaving (0,0) empty — yet
BLACK's move on (0,0) is still rejected (as suicide), refuting "after which
that point is legal again if still empty". -/
theorem claim4_counterexample :
    (makeMove koState6 0 1 BLACK).1 = .success 1 (some (0, 0)) ∧
    koState7.koPoint = some (0, 0) ∧
    isValidMove koState7 0 0 BLACK = .invalid "打劫禁入点" ∧
    isValidMove koState7 0 0 WHITE = .invalid "打劫禁入点" ∧
    (makeMove koState7 2 0 WHITE).1 = .success 0 none ∧
    koState8.koPoint = none ∧
    getCell koState8.board 0 0 = EMPTY ∧
    isValidMove koState8 0 0 BLACK = .invalid "禁止自杀" := by
  refine ⟨by decide, by decide, by decide, by decide, by decide, by decide, by decide,
    by decide⟩

/-- C4 witness: concrete instance of the amended theorem — after BLACK's
capture at (0,1) in `koState6`, the ko point (0,0) is rejected for ko for
WHITE, and the following pass clears the ko point. -/
theorem claim4_witness :
    isValidMove koState7 0 0 WHITE = .invalid "打劫禁入点" ∧
    (pass koState7).2.koPoint = none := by
  have h := claim4_amended koState6 0 1 BLACK 1 (some (0, 0)) koState7
    (by rw [show koState7 = (makeMove koState6 0 1 BLACK).2 from rfl]; decide)
  exact ⟨h.2.2.1 (0, 0) WHITE (by decide), h.2.2.2.1⟩

/-! ### Claim C1: duplicated capture entries -/

/-- The 3x3 position reached by the legal sequence B(0,2) W(0,0) B(1,2)
W(0,1) B(2,1) W(1,1) from a fresh board; the white group {(0,0),(0,1),(1,1)}
has the single liberty (1,0) and touches it from two sides. -/
def c1state : GoState :=
  (makeMove (makeMove (makeMove (makeMove (makeMove (makeMove (init 3)
    0 2 BLACK).2 0 0 WHITE).2 1 2 BLACK).2 0 1 WHITE).2 2 1 BLACK).2 1 1 WHITE).2

/-- C1: BLACK's capture at (1,0) touches the doomed white group through two
neighbours, so `getCapturedStones` lists each of its 3 stones twice (6
entries, 3 distinct), and `makeMove` credits `capturedWhite` with 6 although
only 3 distinct stones are removed from the board — the engine does not merge
duplicates as the claim (and its own tally documentation) requires. -/
theorem claim1_capture_duplication :
    c1state.currentPlayer = BLACK ∧
    (getCapturedStones 3 (setCell c1state.board 1 0 BLACK) 1 0 BLACK).length = 6 ∧
    (getCapturedStones 3 (setCell c1state.board 1 0 BLACK) 1 0 BLACK).dedup.length = 3 ∧
    (makeMove c1state 1 0 BLACK).1 = .success 6 none ∧
    (makeMove c1state 1 0 BLACK).2.capturedWhite = 6 ∧
    countStones 3 c1state.board WHITE = 3 ∧
    countStones 3 (makeMove c1state 1 0 BLACK).2.board WHITE = 0 := by
  refine ⟨by decide, by decide, by decide, by decide, by decide, by decide, by decide⟩

/-- C7 witness: a full 2x2 board with two black and two white stones scores
black 2 and white 2 + 7.5. -/
theorem claim7_witness :
    (calculateScore
        { size := 2, board := [[1, 1], [2, 2]], currentPlayer := BLACK,
          capturedBlack := 0, capturedWhite := 0, lastMove := none, koPoint := none,
          moveHistory := [], boardHistory := [] }).black =
      (countStones 2 [[1, 1], [2, 2]] BLACK : ℚ) ∧
    (calculateScore
        { size := 2, board := [[1, 1], [2, 2]], currentPlayer := BLACK,
          capturedBlack := 0, capturedWhite := 0, lastMove := none, koPoint := none,
          moveHistory := [], boardHistory := [] }).white =
      (countStones 2 [[1, 1], [2, 2]] WHITE : ℚ) + 7.5 :=
  (claim7_score_decomposition _).1 (by decide)

end GoGame
